import Mathlib

/-!
Shallow embedding of the conversion engine of src/Converter-v3.c.

Strings (C char arrays) are modelled as lists of byte values (List Nat),
doubles as exact rationals, and the static unit table as a concrete list.
Each definition mirrors the correspondingly named C function.
-/

namespace Converter

/-- A C string, modelled as the list of its byte values. -/
abbrev Str := List Nat

/-- Byte list of a Lean string literal (ASCII contents only). -/
def str (s : String) : Str := s.data.map Char.toNat

/-- Model of the C toupper on ASCII bytes, as applied by normalize_unit_name. -/
def toupperB (c : Nat) : Nat := if 97 ≤ c ∧ c ≤ 122 then c - 32 else c

/-- The space-removal compaction loop of normalize_unit_name (byte 32 is a space). -/
def removeSpaces : Str → Str
  | [] => []
  | c :: cs => if c = 32 then removeSpaces cs else c :: removeSpaces cs

/-- normalize_unit_name (Converter-v3.c lines 404-418): uppercase every byte,
then remove every space. -/
def normalize_unit_name (u : Str) : Str := removeSpaces (u.map toupperB)

/-- The Unit record of Converter-v3.c (description field omitted; it is never
read by the conversion engine). -/
structure Unit where
  name : Str
  symbol : Str
  factor : ℚ
  category : Str
  is_temp : Bool
  aliases : List Str
deriving DecidableEq

/-- The static unit table built at startup (Converter-v3.c lines 158-366),
in registration order. -/
def units : List Unit := [
  ⟨str "Meter", str "m", 1.0, str "Length", false, [str "metre"]⟩,
  ⟨str "Kilometer", str "km", 1000.0, str "Length", false, [str "kilometre"]⟩,
  ⟨str "Centimeter", str "cm", 0.01, str "Length", false, [str "centimetre"]⟩,
  ⟨str "Millimeter", str "mm", 0.001, str "Length", false, [str "millimetre"]⟩,
  ⟨str "Inch", str "in", 0.0254, str "Length", false, []⟩,
  ⟨str "Foot", str "ft", 0.3048, str "Length", false, []⟩,
  ⟨str "Yard", str "yd", 0.9144, str "Length", false, []⟩,
  ⟨str "Mile", str "mi", 1609.344, str "Length", false, []⟩,
  ⟨str "Light Year", str "ly", 9.461e15, str "Length", false, []⟩,
  ⟨str "Bit", str "b", 1.0, str "Digital Storage", false, []⟩,
  ⟨str "Byte", str "B", 8.0, str "Digital Storage", false, []⟩,
  ⟨str "Kilobyte", str "KB", 8192.0, str "Digital Storage", false, []⟩,
  ⟨str "Megabyte", str "MB", 8388608.0, str "Digital Storage", false, []⟩,
  ⟨str "Gigabyte", str "GB", 8589934592.0, str "Digital Storage", false, []⟩,
  ⟨str "Terabyte", str "TB", 8796093022208.0, str "Digital Storage", false, []⟩,
  ⟨str "Joule", str "J", 1.0, str "Energy", false, []⟩,
  ⟨str "Calorie", str "cal", 4.184, str "Energy", false, []⟩,
  ⟨str "Kilowatt Hour", str "kWh", 3600000.0, str "Energy", false, []⟩,
  ⟨str "Electron Volt", str "eV", 1.602e-19, str "Energy", false, []⟩,
  ⟨str "Watt", str "W", 1.0, str "Power", false, []⟩,
  ⟨str "Horsepower", str "hp", 745.7, str "Power", false, []⟩,
  ⟨str "Kilowatt", str "kW", 1000.0, str "Power", false, []⟩,
  ⟨str "Pascal", str "Pa", 1.0, str "Pressure", false, []⟩,
  ⟨str "Bar", str "bar", 100000.0, str "Pressure", false, []⟩,
  ⟨str "Atmosphere", str "atm", 101325.0, str "Pressure", false, []⟩,
  ⟨str "PSI", str "psi", 6894.76, str "Pressure", false, []⟩,
  ⟨str "Celsius", str "C", 1.0, str "Temperature", true, []⟩,
  ⟨str "Fahrenheit", str "F", 1.0, str "Temperature", true, []⟩,
  ⟨str "Kelvin", str "K", 1.0, str "Temperature", true, []⟩,
  ⟨str "Kilobyte", str "KB", 1024.0, str "Data", false, []⟩,
  ⟨str "Megabyte", str "MB", 1048576.0, str "Data", false, []⟩,
  ⟨str "Gigabyte", str "GB", 1073741824.0, str "Data", false, []⟩,
  ⟨str "Terabyte", str "TB", 1099511627776.0, str "Data", false, []⟩,
  ⟨str "Gram", str "g", 1.0, str "Mass", false, []⟩,
  ⟨str "Kilogram", str "kg", 1000.0, str "Mass", false, []⟩,
  ⟨str "Milligram", str "mg", 0.001, str "Mass", false, []⟩,
  ⟨str "Pound", str "lb", 453.59237, str "Mass", false, []⟩,
  ⟨str "Ounce", str "oz", 28.349523125, str "Mass", false, []⟩,
  ⟨str "Second", str "s", 1.0, str "Time", false, []⟩,
  ⟨str "Minute", str "min", 60.0, str "Time", false, []⟩,
  ⟨str "Hour", str "hr", 3600.0, str "Time", false, []⟩,
  ⟨str "Day", str "day", 86400.0, str "Time", false, []⟩,
  ⟨str "Week", str "week", 604800.0, str "Time", false, []⟩,
  ⟨str "Liter", str "L", 1.0, str "Volume", false, [str "litre"]⟩,
  ⟨str "Milliliter", str "mL", 0.001, str "Volume", false, [str "millilitre"]⟩,
  ⟨str "Gallon", str "gal", 3.785411784, str "Volume", false, []⟩,
  ⟨str "Quart", str "qt", 0.946352946, str "Volume", false, []⟩,
  ⟨str "Pint", str "pt", 0.473176473, str "Volume", false, []⟩,
  ⟨str "Square Meter", str "m2", 1.0, str "Area", false, [str "sqm"]⟩,
  ⟨str "Square Kilometer", str "km2", 1000000.0, str "Area", false, [str "sqkm"]⟩,
  ⟨str "Square Foot", str "ft2", 0.09290304, str "Area", false, [str "sqft"]⟩,
  ⟨str "Square Mile", str "mi2", 2589988.110336, str "Area", false, [str "sqmi"]⟩,
  ⟨str "Acre", str "ac", 4046.8564224, str "Area", false, []⟩,
  ⟨str "Meter per Second", str "m/s", 1.0, str "Speed", false, []⟩,
  ⟨str "Kilometer per Hour", str "km/h", 0.277777778, str "Speed", false, [str "kph"]⟩,
  ⟨str "Mile per Hour", str "mph", 0.44704, str "Speed", false, []⟩,
  ⟨str "Knot", str "kt", 0.514444444, str "Speed", false, []⟩]

/-- The categories array filled at the end of unit-table setup
(Converter-v3.c lines 367-379), in display order. -/
def categories : List Str := [
  str "Length", str "Temperature", str "Digital Storage", str "Mass",
  str "Time", str "Volume", str "Area", str "Speed",
  str "Energy", str "Power", str "Pressure"]

/-- unit_exists (Converter-v3.c lines 421-439): a token is registered in a
category when some unit of that category (or of any category, for the
pseudo-category All) has a matching normalized symbol or a matching raw alias. -/
def unit_exists (u : Str) (category : Str) : Bool :=
  units.any fun un =>
    (un.category == category || category == str "All") &&
    (normalize_unit_name un.symbol == u || un.aliases.any (· == u))

/-- The temperature-dispatch scan at the top of convert_value
(Converter-v3.c lines 455-465): true when some unit whose normalized symbol
equals the from token is flagged as temperature. -/
def isTempFrom (fr : Str) : Bool :=
  units.any fun un => normalize_unit_name un.symbol == fr && un.is_temp

/-- The Celsius-to-target half of convert_temperature
(Converter-v3.c lines 501-510); the final fallthrough returns the original
input value. -/
def tempFromCelsius (value celsius : ℚ) (tu : Str) : ℚ :=
  if tu = str "C" then celsius
  else if tu = str "F" then celsius * 9 / 5 + 32
  else if tu = str "K" then celsius + 273.15
  else value

/-- convert_temperature (Converter-v3.c lines 487-511): map the input to
Celsius, then from Celsius to the target; unrecognized tokens fall through to
the original value. -/
def convert_temperature (value : ℚ) (fr tu : Str) : ℚ :=
  if fr = str "C" then tempFromCelsius value value tu
  else if fr = str "F" then tempFromCelsius value ((value - 32) * 5 / 9) tu
  else if fr = str "K" then tempFromCelsius value (value - 273.15) tu
  else value

/-- The factor-lookup loop of convert_value (Converter-v3.c lines 472-481):
the factor starts at the 1.0 default and is overwritten by every unit whose
normalized symbol equals the token, so the last registered match wins. -/
def matched_factor (tok : Str) : ℚ :=
  units.foldl (fun acc un => if normalize_unit_name un.symbol = tok then un.factor else acc) 1

/-- convert_value (Converter-v3.c lines 453-484): dispatch to the temperature
path when the from token names a temperature unit, otherwise multiply by the
from factor and divide by the to factor. -/
def convert_value (value : ℚ) (fr tu : Str) : ℚ :=
  if isTempFrom fr then convert_temperature value fr tu
  else value * matched_factor fr / matched_factor tu

/-- The token has some registered unit whose normalized symbol equals it
(the matching condition of the factor loop in convert_value). -/
def knownSymbol (tok : Str) : Bool :=
  units.any fun un => normalize_unit_name un.symbol == tok

/-- The all-zero Unit record, standing for C zero-initialized storage; used
only as the out-of-range default of list indexing. -/
def dummyUnit : Unit := ⟨[], [], 0, [], false, []⟩

/-- The keys under which a unit is found by unit_exists: its normalized
symbol plus its aliases exactly as stored (the C code compares aliases
without normalizing them). -/
def keyList (u : Unit) : List Str := normalize_unit_name u.symbol :: u.aliases

/-- Two units share a lookup key. -/
def sharesKey (u v : Unit) : Bool :=
  (keyList u).any fun k => (keyList v).any (· == k)

/-! ## History store -/

/-- MAX_HISTORY (Converter-v3.c line 30). -/
def MAX_HISTORY : Nat := 100

/-- The ConversionEntry record of Converter-v3.c (char from[16]; char to[16];
double value; double result; time_t timestamp). -/
structure ConversionEntry where
  fr : Str
  tu : Str
  value : ℚ
  result : ℚ
  timestamp : ℤ
deriving DecidableEq

/-- add_history_entry (Converter-v3.c lines 514-543): append while below
MAX_HISTORY, otherwise shift every entry down one slot (dropping the oldest)
and write the new entry at the last slot; the from and to tokens are copied
with strncpy into 16-byte fields, hence truncated to 15 bytes. The wall-clock
stamp time(NULL) is passed in as the now argument. -/
def add_history_entry (h : List ConversionEntry) (fr tu : Str) (val res : ℚ)
    (now : ℤ) : List ConversionEntry :=
  if h.length < MAX_HISTORY then h ++ [⟨fr.take 15, tu.take 15, val, res, now⟩]
  else h.tail ++ [⟨fr.take 15, tu.take 15, val, res, now⟩]

/-- The stored entry produced by appending the given entry
(strncpy truncation of both symbols to 15 bytes). -/
def truncEntry (e : ConversionEntry) : ConversionEntry :=
  ⟨e.fr.take 15, e.tu.take 15, e.value, e.result, e.timestamp⟩

/-- N successive add_history_entry calls starting from the empty log; the
entry appended at 1-based step k is f (k-1). -/
def runAppends (f : Nat → ConversionEntry) : Nat → List ConversionEntry
  | 0 => []
  | n + 1 =>
    add_history_entry (runAppends f n) (f n).fr (f n).tu (f n).value (f n).result
      (f n).timestamp

/-! ## Textual persistence: the printf and sscanf number formats

save_history prints each value with printf %.8g and each timestamp with %ld;
load_history reads fields back with sscanf %[^,],%[^,],%lf,%lf,%ld. The
formatter below models %.8g exactly on the rational stand-in for a double:
round the magnitude to eight significant decimal digits, use fixed notation
when the decimal exponent lies in [-4, 8) and scientific notation otherwise,
and strip trailing zeros of the fraction. The parser models the strtod
number grammar used by %lf. -/

/-- ASCII decimal digit test (bytes 48-57). -/
def isDigitB (c : Nat) : Bool := 48 ≤ c && c ≤ 57

/-- ASCII whitespace skipped by sscanf numeric conversions. -/
def isSpaceB (c : Nat) : Bool := c == 32 || c == 9 || c == 10 || c == 13

/-- Decimal digit bytes of n, most significant first; fuel-structured
recursion (the fuel argument only bounds depth and n itself is always
enough fuel). -/
def natDigitsAux : Nat → Nat → Str
  | fuel, n =>
    if n < 10 then [48 + n]
    else
      match fuel with
      | 0 => []
      | f + 1 => natDigitsAux f (n / 10) ++ [48 + n % 10]

/-- Decimal digit bytes of n, most significant first. -/
def natDigits (n : Nat) : Str := natDigitsAux n n

/-- Numeric value of a digit-byte list (the accumulator loop of a decimal
scanner). -/
def digitsValN (l : Str) : Nat := l.foldl (fun a c => a * 10 + (c - 48)) 0

/-- Remove trailing zero digits (byte 48), as the %g format does in the
fraction part. -/
def stripTrailingZeros (l : Str) : Str := (l.reverse.dropWhile (· == 48)).reverse

/-- Round a nonnegative integer fraction a/b (b positive) to the nearest
integer, ties to even: the correct rounding performed by printf. -/
def rheNat (a b : Nat) : Nat :=
  let t := a / b
  let r := a % b
  if 2 * r < b then t
  else if b < 2 * r then t + 1
  else if t % 2 = 0 then t else t + 1

/-- Decimal exponent of the positive rational p/q: the unique e with
10 ^ e ≤ p/q < 10 ^ (e+1), computed from digit counts. -/
def e10pq (p q : Nat) : ℤ :=
  let e0 : ℤ := ((natDigits p).length : ℤ) - ((natDigits q).length : ℤ)
  if q * 10 ^ e0.toNat ≤ p * 10 ^ (-e0).toNat then e0 else e0 - 1

/-- Eight-significant-digit decimal significand and exponent of the positive
rational p/q: n in [10^7, 10^8) and e with p/q rounded to n * 10 ^ (e-7). -/
def sig8pq (p q : Nat) : Nat × ℤ :=
  let e := e10pq p q
  let s := (7 : ℤ) - e
  let n := if 0 ≤ s then rheNat (p * 10 ^ s.toNat) q else rheNat p (q * 10 ^ (-s).toNat)
  if n = 10 ^ 8 then (10 ^ 7, e + 1) else (n, e)

/-- Exponent digits of %e style output: at least two digits. -/
def expDigits (k : Nat) : Str :=
  let d := natDigits k
  if d.length < 2 then 48 :: d else d

/-- The digit layout of the %g style for a significand of digits
natDigits n and decimal exponent e: fixed notation when e lies in [-4, 8),
scientific notation otherwise, trailing fraction zeros stripped. -/
def g8core (neg : Bool) (n : Nat) (e : ℤ) :
    Bool × Str × Option Str × Option (Nat × Str) :=
  let ds := natDigits n
  if -4 ≤ e ∧ e < 8 then
    if 0 ≤ e then
      let ip := ds.take (e.toNat + 1)
      let fp := stripTrailingZeros (ds.drop (e.toNat + 1))
      (neg, ip, if fp = [] then none else some fp, none)
    else
      let fp := stripTrailingZeros (List.replicate ((-e).toNat - 1) 48 ++ ds)
      (neg, [48], some fp, none)
  else
    let rest := stripTrailingZeros ds.tail
    (neg, ds.take 1, if rest = [] then none else some rest,
      some (if e < 0 then 45 else 43, expDigits e.natAbs))

/-- The pieces of the %.8g rendering of x: sign flag, integer digits,
optional fraction digits, optional exponent (sign byte and digits). -/
def g8parts (x : ℚ) : Bool × Str × Option Str × Option (Nat × Str) :=
  if x.num = 0 then (false, [48], none, none)
  else
    g8core (decide (x.num < 0)) (sig8pq x.num.natAbs x.den).1
      (sig8pq x.num.natAbs x.den).2

/-- Rendered fraction part: a decimal point (byte 46) and the digits, or
nothing. -/
def renderFp : Option Str → Str
  | none => []
  | some f => 46 :: f

/-- Rendered exponent part: the letter e (byte 101), the sign byte and the
digits, or nothing. -/
def renderEx : Option (Nat × Str) → Str
  | none => []
  | some (sb, ed) => 101 :: sb :: ed

/-- Assemble sign, integer part, fraction and exponent into the printed
bytes (45 is a minus). -/
def renderParts : Bool × Str × Option Str × Option (Nat × Str) → Str
  | (sgn, ip, fp, ex) =>
    (if sgn then [45] else []) ++ ip ++ renderFp fp ++ renderEx ex

/-- printf %.8g, the format save_history uses for value and result. -/
def formatG8 (x : ℚ) : Str := renderParts (g8parts x)

/-- printf %ld, the format save_history uses for the timestamp. -/
def formatLd (t : ℤ) : Str :=
  if t < 0 then 45 :: natDigits (-t).toNat else natDigits t.toNat

/-- The rational value of sign, integer digits, fraction digits and decimal
exponent, exactly as a strtod-style scanner accumulates it. -/
def ratOf (sgn : Bool) (ipart fpart : Str) (ex : ℤ) : ℚ :=
  mkRat ((if sgn then -1 else 1) *
      ((digitsValN ipart * 10 ^ fpart.length + digitsValN fpart : Nat) : ℤ) *
      10 ^ ex.toNat)
    (10 ^ (fpart.length + (-ex).toNat))

/-- Optional exponent part of the strtod grammar: the letter e or E, an
optional sign and at least one digit; with no digit present nothing is
consumed. -/
def parseExp (s : Str) : ℤ × Str :=
  match s with
  | 101 :: r | 69 :: r =>
    match r with
    | 45 :: r2 =>
      let d := r2.takeWhile isDigitB
      if d = [] then (0, s) else (-(digitsValN d : ℤ), r2.dropWhile isDigitB)
    | 43 :: r2 =>
      let d := r2.takeWhile isDigitB
      if d = [] then (0, s) else ((digitsValN d : ℤ), r2.dropWhile isDigitB)
    | _ =>
      let d := r.takeWhile isDigitB
      if d = [] then (0, s) else ((digitsValN d : ℤ), r.dropWhile isDigitB)
  | _ => (0, s)

/-- The unsigned part of the strtod grammar: integer digits, an optional
point with fraction digits, an optional exponent; at least one mantissa
digit is required. -/
def parseBody (sgn : Bool) (s : Str) : Option (ℚ × Str) :=
  let ipart := s.takeWhile isDigitB
  let s2 := s.dropWhile isDigitB
  let fpr : Str × Str :=
    match s2 with
    | 46 :: r => (r.takeWhile isDigitB, r.dropWhile isDigitB)
    | _ => ([], s2)
  if ipart = [] ∧ fpr.1 = [] then none
  else
    let er := parseExp fpr.2
    some (ratOf sgn ipart fpr.1 er.1, er.2)

/-- The number scanner of sscanf %lf (strtod grammar, restricted to the
decimal forms the program ever writes): skip whitespace, read an optional
sign and the unsigned body. -/
def parseNumber (s : Str) : Option (ℚ × Str) :=
  let s1 := s.dropWhile isSpaceB
  match s1 with
  | 45 :: r => parseBody true r
  | 43 :: r => parseBody false r
  | _ => parseBody false s1

/-- The integer scanner of sscanf %ld: skip whitespace, optional sign,
at least one digit. -/
def parseLong (s : Str) : Option (ℤ × Str) :=
  let s1 := s.dropWhile isSpaceB
  let go : Str → Option (Nat × Str) := fun r =>
    let d := r.takeWhile isDigitB
    if d = [] then none else some (digitsValN d, r.dropWhile isDigitB)
  match s1 with
  | 45 :: r => (go r).map fun p => (-(p.1 : ℤ), p.2)
  | 43 :: r => (go r).map fun p => ((p.1 : ℤ), p.2)
  | _ => (go s1).map fun p => ((p.1 : ℤ), p.2)

/-- The line save_history prints for one entry (byte 44 is the comma):
from,to,%.8g value,%.8g result,%ld timestamp. -/
def mkLine (e : ConversionEntry) : Str :=
  e.fr ++ 44 :: e.tu ++ 44 :: formatG8 e.value ++ 44 :: formatG8 e.result ++
    44 :: formatLd e.timestamp

/-- save_history (Converter-v3.c lines 546-563): one line per entry, in
order. -/
def save_history (h : List ConversionEntry) : List Str := h.map mkLine

/-- One line parsed by the sscanf format %[^,],%[^,],%lf,%lf,%ld of
load_history: two nonempty comma-free fields, two numbers and an integer,
each pair separated by a literal comma. The two symbol fields are then
copied into the entry with strncpy, hence truncated to 15 bytes. -/
def parseLine (line : Str) : Option ConversionEntry :=
  let f1 := line.takeWhile (· != 44)
  let r1 := line.dropWhile (· != 44)
  if f1 = [] then none
  else
    match r1 with
    | 44 :: r2 =>
      let f2 := r2.takeWhile (· != 44)
      let r3 := r2.dropWhile (· != 44)
      if f2 = [] then none
      else
        match r3 with
        | 44 :: r4 =>
          match parseNumber r4 with
          | some (v, 44 :: r5) =>
            match parseNumber r5 with
            | some (res, 44 :: r6) =>
              match parseLong r6 with
              | some (ts, _) => some ⟨f1.take 15, f2.take 15, v, res, ts⟩
              | none => none
            | _ => none
          | _ => none
        | _ => none
    | _ => none

/-- load_history (Converter-v3.c lines 566-594): scan the file lines in
order, keep every line the sscanf format accepts, silently skip the rest,
and stop once MAX_HISTORY entries are loaded. The acc argument is the
in-memory log being filled (empty at startup). -/
def load_history : List Str → List ConversionEntry → List ConversionEntry
  | [], acc => acc
  | l :: ls, acc =>
    if acc.length < MAX_HISTORY then
      match parseLine l with
      | some e => load_history ls (acc ++ [e])
      | none => load_history ls acc
    else acc

/-- Print-then-reparse of one double through the %.8g line format: the
eight-significant-digit rounding a value undergoes in one save and load
cycle. -/
def roundtrip8g (x : ℚ) : ℚ :=
  match parseNumber (formatG8 x) with
  | some (q, _) => q
  | none => 0

/-- The entry as it comes back from one save and load cycle: symbols and
timestamp intact, value and result rounded to eight significant digits. -/
def entryRT (e : ConversionEntry) : ConversionEntry :=
  ⟨e.fr, e.tu, roundtrip8g e.value, roundtrip8g e.result, e.timestamp⟩

/-- A symbol that survives the line format: nonempty (sscanf %[^,] fails on
an empty field) and free of commas and newlines. -/
def wfTok (s : Str) : Prop := s ≠ [] ∧ 44 ∉ s ∧ 10 ∉ s

/-- A history entry whose symbols round-trip through the file: well-formed
tokens already truncated to the 15 bytes the entry fields hold. -/
def wfEntry (e : ConversionEntry) : Prop :=
  wfTok e.fr ∧ wfTok e.tu ∧ e.fr.length ≤ 15 ∧ e.tu.length ≤ 15

/-! ## main -/

/-- The externally visible outcome of running main: process exit status,
every snapshot save_history wrote during the run, standard error output,
the menu printed as numbered labels, and the in-memory history after
startup loading. -/
structure MainResult where
  exitCode : Nat
  historyWrites : List (List ConversionEntry)
  stderrLines : List Str
  menu : List (Nat × Str)
  finalHistory : List ConversionEntry

/-- show_main_menu (Converter-v3.c lines 798-816): the numbered category
labels in display order followed by the five sentinel entries. -/
def show_main_menu : List (Nat × Str) :=
  ((List.range categories.length).map fun i => (i + 1, categories.getD i [])) ++
    [(categories.length + 1, str "Favorites"),
     (categories.length + 2, str "Quick Conversions"),
     (categories.length + 3, str "History"),
     (categories.length + 4, str "Help"),
     (categories.length + 5, str "Quit")]

/-- main (Converter-v3.c lines 1182-1192). The body never reads argc or
argv: it builds the unit table, loads history and favorites, prints the
main menu once and returns 0. No branch writes the history file, prints a
conversion line or touches standard error, whatever the argument vector
holds. -/
def c_main (args : List Str) (histLines : List Str) : MainResult :=
  let _ := args
  ⟨0, [], [], show_main_menu, load_history histLines []⟩

/-- Value of an optional parsed exponent part (sign byte and digits). -/
def exVal : Option (Nat × Str) → ℤ
  | none => 0
  | some (sb, ed) => if sb = 45 then -(digitsValN ed : ℤ) else (digitsValN ed : ℤ)

/-- A concrete stream of history entries, used to instantiate universally
quantified history statements. -/
def sampleEntryF : Nat → ConversionEntry :=
  fun i => ⟨str "A", str "B", mkRat (i : ℤ) 1, 0, 0⟩

/-- The value carried by the %.8g rendering of x, as the strtod-style scanner
recovers it. -/
def g8val (x : ℚ) : ℚ :=
  ratOf (g8parts x).1 (g8parts x).2.1 ((g8parts x).2.2.1.getD [])
    (exVal (g8parts x).2.2.2)

/-! # Theorems -/

/-! ## Normalizer -/

theorem toupperB_idem (c : Nat) : toupperB (toupperB c) = toupperB c := by
  by_cases h : 97 ≤ c ∧ c ≤ 122
  · simp only [toupperB, if_pos h]
    rw [if_neg (by omega)]
  · simp only [toupperB, if_neg h]

theorem toupperB_eq_32_iff (c : Nat) : toupperB c = 32 ↔ c = 32 := by
  unfold toupperB
  split <;> omega

theorem removeSpaces_eq_filter (l : Str) :
    removeSpaces l = l.filter (fun c => c != 32) := by
  induction l with
  | nil => rfl
  | cons c cs ih =>
    by_cases h : c = 32 <;> simp [removeSpaces, h, ih, List.filter_cons]

theorem filter_map_toupperB (l : Str) :
    (l.map toupperB).filter (fun c => c != 32) =
      (l.filter (fun c => c != 32)).map toupperB := by
  induction l with
  | nil => rfl
  | cons c cs ih =>
    by_cases h : c = 32
    · subst h
      simp [List.filter_cons, ih, show toupperB 32 = 32 from rfl]
    · have h2 : toupperB c ≠ 32 := fun hc => h ((toupperB_eq_32_iff c).mp hc)
      simp [List.filter_cons, h, h2, ih]

theorem normalize_filter_map (l : Str) :
    normalize_unit_name l = (l.filter (fun c => c != 32)).map toupperB := by
  rw [normalize_unit_name, removeSpaces_eq_filter, filter_map_toupperB]

/-- C4: the claimed case-preserving allow-list does not exist in the code;
already the first allow-list token m is uppercased. -/
theorem normalize_allowlist_cx :
    normalize_unit_name (str "m") = str "M" ∧ str "M" ≠ str "m" := by decide

/-- C4 (amended): normalize_unit_name uppercases every byte and strips every
space of every raw token, with no case-preserving allow-list; in particular
the allow-list token m becomes M. -/
theorem normalize_uppercases_all (s : Str) :
    normalize_unit_name s = (s.filter (fun c => c != 32)).map toupperB ∧
      normalize_unit_name (str "m") = str "M" :=
  ⟨normalize_filter_map s, by decide⟩

/-- C5: normalize_unit_name is idempotent. -/
theorem normalize_idempotent (s : Str) :
    normalize_unit_name (normalize_unit_name s) = normalize_unit_name s := by
  rw [normalize_filter_map (normalize_unit_name s), normalize_filter_map s]
  rw [List.filter_eq_self.mpr]
  · rw [List.map_map]
    rw [show toupperB ∘ toupperB = toupperB from funext toupperB_idem]
  · intro a ha
    obtain ⟨b, hb, rfl⟩ := List.mem_map.mp ha
    have hb32 : b ≠ 32 := by simpa using List.of_mem_filter hb
    simpa using fun hc => hb32 ((toupperB_eq_32_iff b).mp hc)

/-! ## Converter -/

theorem tempFrom_cases {fr : Str} (h : isTempFrom fr = true) :
    fr = str "C" ∨ fr = str "F" ∨ fr = str "K" := by
  rw [isTempFrom, List.any_eq_true] at h
  obtain ⟨u, hu, hcond⟩ := h
  rw [Bool.and_eq_true, beq_iff_eq] at hcond
  obtain ⟨hsym, htemp⟩ := hcond
  have hall : ∀ u ∈ units, u.is_temp = true →
      normalize_unit_name u.symbol = str "C" ∨
        normalize_unit_name u.symbol = str "F" ∨
        normalize_unit_name u.symbol = str "K" := by decide
  rcases hall u hu htemp with h1 | h1 | h1
  · exact Or.inl (hsym ▸ h1).symm.symm
  · exact Or.inr (Or.inl (hsym ▸ h1).symm.symm)
  · exact Or.inr (Or.inr (hsym ▸ h1).symm.symm)

theorem nontemp_category_sym {u : Unit} (hu : u ∈ units)
    (hc : u.category ≠ str "Temperature") :
    normalize_unit_name u.symbol ≠ str "C" ∧
      normalize_unit_name u.symbol ≠ str "F" ∧
      normalize_unit_name u.symbol ≠ str "K" := by
  have hall : ∀ u ∈ units, u.category ≠ str "Temperature" →
      (normalize_unit_name u.symbol ≠ str "C" ∧
        normalize_unit_name u.symbol ≠ str "F" ∧
        normalize_unit_name u.symbol ≠ str "K") := by decide
  exact hall u hu hc

theorem temp_category_sym {u : Unit} (hu : u ∈ units)
    (hc : normalize_unit_name u.symbol = str "C" ∨
      normalize_unit_name u.symbol = str "F" ∨
      normalize_unit_name u.symbol = str "K") :
    u.category = str "Temperature" := by
  have hall : ∀ u ∈ units,
      (normalize_unit_name u.symbol = str "C" ∨
        normalize_unit_name u.symbol = str "F" ∨
        normalize_unit_name u.symbol = str "K") →
      u.category = str "Temperature" := by decide
  exact hall u hu hc

/-- C1: among the temperature tokens C, F and K, convert_value dispatches to
the affine Celsius-pivot formulas (first to Celsius, then from Celsius), and
the four literal conversions of the spec hold. -/
theorem temperature_affine (v : ℚ) :
    convert_value v (str "C") (str "C") = v ∧
    convert_value v (str "C") (str "F") = v * 9 / 5 + 32 ∧
    convert_value v (str "C") (str "K") = v + 273.15 ∧
    convert_value v (str "F") (str "C") = (v - 32) * 5 / 9 ∧
    convert_value v (str "F") (str "F") = (v - 32) * 5 / 9 * 9 / 5 + 32 ∧
    convert_value v (str "F") (str "K") = (v - 32) * 5 / 9 + 273.15 ∧
    convert_value v (str "K") (str "C") = v - 273.15 ∧
    convert_value v (str "K") (str "F") = (v - 273.15) * 9 / 5 + 32 ∧
    convert_value v (str "K") (str "K") = v - 273.15 + 273.15 ∧
    convert_value 0 (str "C") (str "F") = 32 ∧
    convert_value 0 (str "C") (str "K") = 273.15 ∧
    convert_value 32 (str "F") (str "C") = 0 ∧
    convert_value 273.15 (str "K") (str "C") = 0 := by
  have hC : isTempFrom (str "C") = true := by decide
  have hF : isTempFrom (str "F") = true := by decide
  have hK : isTempFrom (str "K") = true := by decide
  refine ⟨?_, ?_, ?_, ?_, ?_, ?_, ?_, ?_, ?_, ?_, ?_, ?_, ?_⟩ <;>
    simp +decide only [convert_value, hC, hF, hK, if_true, convert_temperature,
      tempFromCelsius] <;>
    first
    | rfl
    | norm_num

/-- C2 (code evaluation): the Digital Storage category is bit-based (Bit b
factor 1, Byte B factor 8, KB factor 8192) while the byte-based factors the
claim lists live in the separate Data category; as a result the B token
resolves to factor 8 and the KB token to the late Data entry 1024, so
converting 1024 B to KB yields 8, not 1, while the chained TB to GB to MB
conversion resolves inside Data and does yield 1048576. -/
theorem digital_storage_bit_based :
    (units.getD 9 dummyUnit).category = str "Digital Storage" ∧
    (units.getD 9 dummyUnit).symbol = str "b" ∧
    (units.getD 9 dummyUnit).factor = 1 ∧
    (units.getD 10 dummyUnit).category = str "Digital Storage" ∧
    (units.getD 10 dummyUnit).symbol = str "B" ∧
    (units.getD 10 dummyUnit).factor = 8 ∧
    (units.getD 11 dummyUnit).symbol = str "KB" ∧
    (units.getD 11 dummyUnit).factor = 8192 ∧
    (units.getD 29 dummyUnit).category = str "Data" ∧
    (units.getD 29 dummyUnit).symbol = str "KB" ∧
    (units.getD 29 dummyUnit).factor = 1024 ∧
    matched_factor (str "B") = 8 ∧
    matched_factor (str "KB") = 1024 ∧
    convert_value 1024 (str "B") (str "KB") = 8 ∧
    convert_value (convert_value 1 (str "TB") (str "GB")) (str "GB") (str "MB")
      = 1048576 := by
  refine ⟨by decide, by decide, ?_, by decide, by decide, ?_, by decide, ?_,
    by decide, by decide, ?_, ?_, ?_, ?_, ?_⟩ <;>
    simp +decide only [convert_value, isTempFrom, matched_factor, units,
      List.foldl, List.getD, List.get?, Option.getD] <;>
    norm_num

/-- C3 (counterexample): KM and S both resolve to registered units (Kilometer
in Length, Second in Time), the categories differ, and convert_value still
returns the numeric factor quotient 1000 rather than the unchanged input
value with an error. -/
theorem cross_category_numeric_cx :
    unit_exists (str "KM") (str "All") = true ∧
    unit_exists (str "S") (str "All") = true ∧
    normalize_unit_name (units.getD 1 dummyUnit).symbol = str "KM" ∧
    normalize_unit_name (units.getD 38 dummyUnit).symbol = str "S" ∧
    (units.getD 1 dummyUnit).category ≠ (units.getD 38 dummyUnit).category ∧
    convert_value 1 (str "KM") (str "S") ≠ 1 := by
  refine ⟨by decide, by decide, by decide, by decide, by decide, ?_⟩
  have h : convert_value 1 (str "KM") (str "S") = 1000 := by
    simp +decide only [convert_value, isTempFrom, matched_factor, units,
      List.foldl]
    norm_num
  rw [h]
  norm_num

/-- C3 (amended): convert_value has no error channel and performs no category
check. For tokens resolving to registered units of different categories it
still returns a number: the input value unchanged when the from token is one
of the temperature keys (the convert_temperature fallthrough), and the factor
quotient value * from_factor / to_factor otherwise. -/
theorem cross_category_no_error (v : ℚ) (fr tu : Str)
    (i j : Fin units.length)
    (hi : normalize_unit_name (units.get i).symbol = fr)
    (hj : normalize_unit_name (units.get j).symbol = tu)
    (hcat : (units.get i).category ≠ (units.get j).category) :
    (isTempFrom fr = true → convert_value v fr tu = v) ∧
    (isTempFrom fr = false →
      convert_value v fr tu = v * matched_factor fr / matched_factor tu) := by
  constructor
  · intro ht
    have hiT : (units.get i).category = str "Temperature" :=
      temp_category_sym (List.get_mem units i.1 i.2) (hi ▸ tempFrom_cases ht)
    have hjT : (units.get j).category ≠ str "Temperature" := by
      rw [hiT] at hcat
      exact fun hh => hcat hh.symm
    obtain ⟨h1, h2, h3⟩ := nontemp_category_sym (List.get_mem units j.1 j.2) hjT
    rw [hj] at h1 h2 h3
    rw [convert_value, if_pos ht]
    rcases tempFrom_cases ht with h | h | h <;> subst h <;>
      simp +decide only [convert_temperature, tempFromCelsius, if_neg h1,
        if_neg h2, if_neg h3] <;>
      rfl
  · intro ht
    rw [convert_value, if_neg (by simp [ht])]

theorem cross_category_no_error_witness :
    convert_value 7 (str "C") (str "S") = 7 ∧
    convert_value 7 (str "KM") (str "S") =
      7 * matched_factor (str "KM") / matched_factor (str "S") := by
  constructor
  · exact (cross_category_no_error 7 (str "C") (str "S")
      ⟨26, by decide⟩ ⟨38, by decide⟩ (by decide) (by decide) (by decide)).1
      (by decide)
  · exact (cross_category_no_error 7 (str "KM") (str "S")
      ⟨1, by decide⟩ ⟨38, by decide⟩ (by decide) (by decide) (by decide)).2
      (by decide)

/-! ## Registry key uniqueness -/

/-- C9 (counterexample): Bit (symbol b) and Byte (symbol B) are two distinct
units of the same category Digital Storage whose symbols normalize to the
same canonical key B. -/
theorem registry_duplicate_key_cx :
    (units.getD 9 dummyUnit).category = (units.getD 10 dummyUnit).category ∧
    normalize_unit_name (units.getD 9 dummyUnit).symbol =
      normalize_unit_name (units.getD 10 dummyUnit).symbol ∧
    (units.getD 9 dummyUnit).symbol ≠ (units.getD 10 dummyUnit).symbol := by
  decide

/-- C9 (amended): within any category the lookup keys (normalized symbol
plus stored aliases) of two distinct registered units are disjoint, with the
single exception of Bit and Byte in Digital Storage, whose symbols b and B
collapse to the same key under normalization. -/
theorem registry_key_unique_except_bit_byte :
    ∀ i j : Fin units.length, i.val < j.val →
      (units.get i).category = (units.get j).category →
      sharesKey (units.get i) (units.get j) = true →
      i.val = 9 ∧ j.val = 10 := by
  decide

theorem registry_key_unique_witness :
    (9 : Nat) = 9 ∧ (10 : Nat) = 10 :=
  registry_key_unique_except_bit_byte ⟨9, by decide⟩ ⟨10, by decide⟩
    (by decide) (by decide) (by decide)

/-! ## Totality and default factors of convert_value -/

theorem known_of_temp {fr : Str} (h : isTempFrom fr = true) :
    knownSymbol fr = true := by
  rw [isTempFrom, List.any_eq_true] at h
  obtain ⟨u, hu, hcond⟩ := h
  rw [Bool.and_eq_true] at hcond
  rw [knownSymbol, List.any_eq_true]
  exact ⟨u, hu, hcond.1⟩

theorem foldl_factor_no_match {tok : Str} :
    ∀ (l : List Unit) (init : ℚ),
      (∀ u ∈ l, normalize_unit_name u.symbol ≠ tok) →
      l.foldl (fun acc un =>
        if normalize_unit_name un.symbol = tok then un.factor else acc) init
        = init := by
  intro l
  induction l with
  | nil => intro init _; rfl
  | cons u l ih =>
    intro init h
    rw [List.foldl_cons, if_neg (h u (List.mem_cons_self u l))]
    exact ih init fun w hw => h w (List.mem_cons_of_mem u hw)

theorem matched_factor_unknown {tok : Str} (h : knownSymbol tok = false) :
    matched_factor tok = 1 := by
  rw [matched_factor]
  refine foldl_factor_no_match units 1 fun u hu => ?_
  intro he
  rw [knownSymbol, List.any_eq_false] at h
  exact h u hu (by simp [he])

theorem matched_factor_C : matched_factor (str "C") = 1 := by
  simp +decide only [matched_factor, units, List.foldl]
  norm_num

theorem matched_factor_F : matched_factor (str "F") = 1 := by
  simp +decide only [matched_factor, units, List.foldl]
  norm_num

theorem matched_factor_K : matched_factor (str "K") = 1 := by
  simp +decide only [matched_factor, units, List.foldl]
  norm_num

/-- C10: convert_value is total and silently defaults unmatched factors to
1.0: with both tokens unmatched it returns the input value, with only the
to token matched it divides by that factor alone, and with only the from
token matched it multiplies by that factor alone (the temperature fallthrough
agrees with this because the three temperature units carry factor 1.0). -/
theorem convert_total_default_factor (v : ℚ) (fr tu : Str) :
    (knownSymbol fr = false → knownSymbol tu = false →
      convert_value v fr tu = v) ∧
    (knownSymbol fr = false → knownSymbol tu = true →
      convert_value v fr tu = v / matched_factor tu) ∧
    (knownSymbol fr = true → knownSymbol tu = false →
      convert_value v fr tu = v * matched_factor fr) := by
  have hdisp : knownSymbol fr = false →
      convert_value v fr tu = v * matched_factor fr / matched_factor tu := by
    intro hf
    have ht : isTempFrom fr = false := by
      cases hh : isTempFrom fr
      · rfl
      · rw [known_of_temp hh] at hf; cases hf
    rw [convert_value, if_neg (by simp [ht])]
  refine ⟨?_, ?_, ?_⟩
  · intro hf htu
    rw [hdisp hf, matched_factor_unknown hf, matched_factor_unknown htu,
      mul_one, div_one]
  · intro hf htu
    rw [hdisp hf, matched_factor_unknown hf, mul_one]
  · intro hf htu
    have hmt : matched_factor tu = 1 := matched_factor_unknown htu
    cases hh : isTempFrom fr with
    | false =>
      rw [convert_value, if_neg (by simp [hh]), hmt, div_one]
    | true =>
      have hstop : tu ≠ str "C" ∧ tu ≠ str "F" ∧ tu ≠ str "K" := by
        refine ⟨?_, ?_, ?_⟩ <;> intro he <;> rw [he] at htu <;>
          exact absurd htu (by decide)
      obtain ⟨h1, h2, h3⟩ := hstop
      rw [convert_value, if_pos hh]
      rcases tempFrom_cases hh with h | h | h <;> subst h
      · rw [matched_factor_C, mul_one]
        simp +decide only [convert_temperature, tempFromCelsius, if_neg h1,
          if_neg h2, if_neg h3]
        rfl
      · rw [matched_factor_F, mul_one]
        simp +decide only [convert_temperature, tempFromCelsius, if_neg h1,
          if_neg h2, if_neg h3]
        rfl
      · rw [matched_factor_K, mul_one]
        simp +decide only [convert_temperature, tempFromCelsius, if_neg h1,
          if_neg h2, if_neg h3]
        rfl

theorem convert_total_default_factor_witness :
    convert_value 7 (str "ZZ") (str "QQ") = 7 ∧
    convert_value 7 (str "ZZ") (str "KM") = 7 / matched_factor (str "KM") ∧
    convert_value 7 (str "KM") (str "QQ") = 7 * matched_factor (str "KM") :=
  ⟨(convert_total_default_factor 7 (str "ZZ") (str "QQ")).1 (by decide)
      (by decide),
    (convert_total_default_factor 7 (str "ZZ") (str "KM")).2.1 (by decide)
      (by decide),
    (convert_total_default_factor 7 (str "KM") (str "QQ")).2.2 (by decide)
      (by decide)⟩

/-! ## History bound -/

theorem runAppends_closed (f : Nat → ConversionEntry) :
    ∀ N, runAppends f N =
      ((List.range N).map fun i => truncEntry (f i)).drop (N - MAX_HISTORY) := by
  intro N
  induction N with
  | zero => simp [runAppends]
  | succ n ih =>
    have hlen : (runAppends f n).length = n - (n - MAX_HISTORY) := by
      rw [ih]; simp
    rw [runAppends, add_history_entry]
    have hnew : (⟨(f n).fr.take 15, (f n).tu.take 15, (f n).value, (f n).result,
        (f n).timestamp⟩ : ConversionEntry) = truncEntry (f n) := rfl
    by_cases hn : n < MAX_HISTORY
    · rw [if_pos (by rw [hlen]; omega)]
      rw [ih, Nat.sub_eq_zero_of_le (Nat.le_of_lt hn),
        Nat.sub_eq_zero_of_le hn, List.drop_zero, List.drop_zero,
        List.range_succ, List.map_append, hnew]
      rfl
    · rw [if_neg (by rw [hlen]; unfold MAX_HISTORY at *; omega)]
      rw [ih, List.tail_drop, List.range_succ, List.map_append,
        List.drop_append_of_le_length
          (by simp [MAX_HISTORY]; try omega)]
      have h2 : n - MAX_HISTORY + 1 = n + 1 - MAX_HISTORY := by
        unfold MAX_HISTORY at *; omega
      rw [h2, hnew]
      rfl

/-- C6: starting from the empty log, after N appends the log is exactly the
last min(N, 100) appended entries in insertion order: its length is
min(N, 100), and for N above 100 its first element is the entry appended at
1-based step N - 99 (oldest entries evicted first). -/
theorem history_bound_fifo (f : Nat → ConversionEntry) (N : Nat) :
    runAppends f N =
      ((List.range N).map fun i => truncEntry (f i)).drop (N - MAX_HISTORY) ∧
    (runAppends f N).length = min N MAX_HISTORY ∧
    (MAX_HISTORY < N →
      (runAppends f N).head? = some (truncEntry (f (N - MAX_HISTORY)))) := by
  refine ⟨runAppends_closed f N, ?_, ?_⟩
  · rw [runAppends_closed f N]
    simp [MAX_HISTORY]
    omega
  · intro hN
    rw [runAppends_closed f N, List.head?_drop]
    rw [List.getElem?_map, List.getElem?_range (by unfold MAX_HISTORY at *; omega)]
    rfl

theorem history_bound_fifo_witness :
    MAX_HISTORY < 101 ∧
      (runAppends sampleEntryF 101).head? =
        some (truncEntry (sampleEntryF 1)) := by
  refine ⟨by decide, ?_⟩
  have h := (history_bound_fifo sampleEntryF 101).2.2 (by decide)
  simpa using h

/-! ## Persistence round trip -/

theorem takeWhile_append_stop {p : Nat → Bool} :
    ∀ (l t : Str), (∀ c ∈ l, p c = true) →
      (∀ c, t.head? = some c → p c = false) →
      (l ++ t).takeWhile p = l ∧ (l ++ t).dropWhile p = t := by
  intro l
  induction l with
  | nil =>
    intro t _ ht
    cases t with
    | nil => exact ⟨rfl, rfl⟩
    | cons c r =>
      rw [List.nil_append, List.takeWhile_cons, List.dropWhile_cons, ht c rfl]
      simp
  | cons a l ih =>
    intro t hl ht
    have ha : p a = true := hl a (List.mem_cons_self a l)
    obtain ⟨h1, h2⟩ := ih t (fun c hc => hl c (List.mem_cons_of_mem a hc)) ht
    rw [List.cons_append, List.takeWhile_cons, List.dropWhile_cons, ha]
    simp [h1, h2]

theorem takeWhile_all {p : Nat → Bool} (l : Str)
    (hl : ∀ c ∈ l, p c = true) :
    l.takeWhile p = l ∧ l.dropWhile p = l.drop l.length := by
  have h := takeWhile_append_stop l [] hl (fun c hc => nomatch hc)
  rw [List.append_nil] at h
  rw [List.drop_length]
  exact h

theorem natDigitsAux_digits :
    ∀ (fuel n : Nat), ∀ c ∈ natDigitsAux fuel n, isDigitB c = true := by
  intro fuel
  induction fuel with
  | zero =>
    intro n c hc
    rw [natDigitsAux] at hc
    split at hc
    · rename_i h10
      rw [List.mem_singleton] at hc
      subst hc
      simp [isDigitB]
      omega
    · cases hc
  | succ f ih =>
    intro n c hc
    rw [natDigitsAux] at hc
    split at hc
    · rename_i h10
      rw [List.mem_singleton] at hc
      subst hc
      simp [isDigitB]
      omega
    · rw [List.mem_append, List.mem_singleton] at hc
      rcases hc with hc | hc
      · exact ih (n / 10) c hc
      · subst hc
        simp [isDigitB]
        omega

theorem natDigits_digits (n : Nat) : ∀ c ∈ natDigits n, isDigitB c = true :=
  natDigitsAux_digits n n

theorem natDigitsAux_ne_nil :
    ∀ (fuel n : Nat), n ≤ fuel ∨ n < 10 → natDigitsAux fuel n ≠ [] := by
  intro fuel n h
  cases fuel with
  | zero =>
    rw [natDigitsAux]
    split
    · simp
    · rename_i h10
      omega
  | succ f =>
    rw [natDigitsAux]
    split
    · simp
    · simp

theorem natDigits_ne_nil (n : Nat) : natDigits n ≠ [] :=
  natDigitsAux_ne_nil n n (Or.inl le_rfl)

theorem digitsValN_append_digit (l : Str) (c : Nat) :
    digitsValN (l ++ [c]) = digitsValN l * 10 + (c - 48) := by
  unfold digitsValN
  rw [List.foldl_append]
  rfl

theorem digitsValN_natDigitsAux :
    ∀ (fuel n : Nat), n ≤ fuel → digitsValN (natDigitsAux fuel n) = n := by
  intro fuel
  induction fuel with
  | zero =>
    intro n h
    have hn : n = 0 := by omega
    subst hn
    decide
  | succ f ih =>
    intro n h
    rw [natDigitsAux]
    split
    · rename_i h10
      simp [digitsValN, List.foldl]
      try omega
    · rename_i h10
      rw [digitsValN_append_digit, ih (n / 10) (by omega)]
      omega

theorem digitsValN_natDigits (n : Nat) : digitsValN (natDigits n) = n :=
  digitsValN_natDigitsAux n n le_rfl

theorem mem_stripTrailingZeros {c : Nat} {l : Str}
    (h : c ∈ stripTrailingZeros l) : c ∈ l := by
  unfold stripTrailingZeros at h
  rw [List.mem_reverse] at h
  exact List.mem_reverse.mp ((List.dropWhile_sublist _).subset h)

theorem isSpaceB_of_digit {c : Nat} (h : isDigitB c = true) :
    isSpaceB c = false := by
  simp only [isDigitB, Bool.and_eq_true, decide_eq_true_eq] at h
  simp only [isSpaceB, Bool.or_eq_false_iff, beq_eq_false_iff_ne]
  omega

theorem rest_stop {rest : Str} (hrest : rest = [] ∨ ∃ r, rest = 44 :: r) :
    ∀ c, rest.head? = some c → isDigitB c = false := by
  rcases hrest with rfl | ⟨r, rfl⟩
  · intro c hc; cases hc
  · intro c hc
    rw [List.head?_cons] at hc
    cases hc
    decide

theorem exrest_stop (ex : Option (Nat × Str)) {rest : Str}
    (hrest : rest = [] ∨ ∃ r, rest = 44 :: r) :
    ∀ c, (renderEx ex ++ rest).head? = some c → isDigitB c = false := by
  cases ex with
  | some p =>
    obtain ⟨sb, ed⟩ := p
    intro c hc
    rw [renderEx, List.cons_append, List.head?_cons] at hc
    cases hc
    decide
  | none =>
    rw [renderEx, List.nil_append]
    exact rest_stop hrest

theorem parseExp_render (ex : Option (Nat × Str)) (rest : Str)
    (hex : ∀ sb ed, ex = some (sb, ed) →
      (sb = 43 ∨ sb = 45) ∧ ed ≠ [] ∧ ∀ c ∈ ed, isDigitB c = true)
    (hrest : rest = [] ∨ ∃ r, rest = 44 :: r) :
    parseExp (renderEx ex ++ rest) = (exVal ex, rest) := by
  cases ex with
  | none =>
    simp only [renderEx, List.nil_append, exVal]
    rcases hrest with rfl | ⟨r, rfl⟩
    · rfl
    · rfl
  | some p =>
    obtain ⟨sb, ed⟩ := p
    obtain ⟨hsb, hed, hedd⟩ := hex sb ed rfl
    obtain ⟨ht1, ht2⟩ := takeWhile_append_stop ed rest hedd (rest_stop hrest)
    rcases hsb with rfl | rfl <;>
      simp [renderEx, parseExp, ht1, ht2, hed, exVal]

theorem parseBody_render (sgn : Bool) (ip : Str) (fp : Option Str)
    (ex : Option (Nat × Str)) (rest : Str)
    (hip : ip ≠ []) (hipd : ∀ c ∈ ip, isDigitB c = true)
    (hfpd : ∀ f, fp = some f → ∀ c ∈ f, isDigitB c = true)
    (hex : ∀ sb ed, ex = some (sb, ed) →
      (sb = 43 ∨ sb = 45) ∧ ed ≠ [] ∧ ∀ c ∈ ed, isDigitB c = true)
    (hrest : rest = [] ∨ ∃ r, rest = 44 :: r) :
    parseBody sgn (ip ++ (renderFp fp ++ (renderEx ex ++ rest))) =
      some (ratOf sgn ip (fp.getD []) (exVal ex), rest) := by
  cases fp with
  | some f =>
    obtain ⟨g1, g2⟩ := takeWhile_append_stop f (renderEx ex ++ rest)
      (hfpd f rfl) (exrest_stop ex hrest)
    have hipstop : ∀ c,
        ((46 : Nat) :: (f ++ (renderEx ex ++ rest))).head? = some c →
        isDigitB c = false := by
      intro c hc
      rw [List.head?_cons] at hc
      cases hc
      decide
    have harg : renderFp (some f) ++ (renderEx ex ++ rest) =
        46 :: (f ++ (renderEx ex ++ rest)) := by
      simp [renderFp]
    rw [harg]
    obtain ⟨h1, h2⟩ := takeWhile_append_stop ip _ hipd hipstop
    simp only [parseBody, h1, h2, g1, g2]
    rw [if_neg (by simp [hip])]
    rw [parseExp_render ex rest hex hrest]
    simp
  | none =>
    have harg : renderFp (none : Option Str) ++ (renderEx ex ++ rest) =
        renderEx ex ++ rest := by
      simp [renderFp]
    rw [harg]
    obtain ⟨h1, h2⟩ := takeWhile_append_stop ip (renderEx ex ++ rest) hipd
      (exrest_stop ex hrest)
    cases ex with
    | some p =>
      obtain ⟨sb, ed⟩ := p
      have hre : renderEx (some (sb, ed)) ++ rest =
          101 :: sb :: (ed ++ rest) := by
        simp [renderEx]
      rw [hre] at h1 h2 ⊢
      simp only [parseBody, h1, h2]
      rw [if_neg (by simp [hip])]
      have he := parseExp_render (some (sb, ed)) rest hex hrest
      rw [show renderEx (some (sb, ed)) ++ rest = 101 :: sb :: (ed ++ rest)
        from by simp [renderEx]] at he
      rw [he]
      simp
    | none =>
      have hre : renderEx (none : Option (Nat × Str)) ++ rest = rest := by
        simp [renderEx]
      rw [hre] at h1 h2 ⊢
      rcases hrest with rfl | ⟨r, rfl⟩
      · simp only [parseBody, h1, h2]
        rw [if_neg (by simp [hip])]
        simp [parseExp, exVal]
      · simp only [parseBody, h1, h2]
        rw [if_neg (by simp [hip])]
        simp [parseExp, exVal]

theorem expDigits_spec (k : Nat) :
    expDigits k ≠ [] ∧ ∀ c ∈ expDigits k, isDigitB c = true := by
  simp only [expDigits]
  split
  · refine ⟨by simp, ?_⟩
    intro c hc
    rw [List.mem_cons] at hc
    rcases hc with rfl | hc
    · decide
    · exact natDigits_digits _ c hc
  · exact ⟨natDigits_ne_nil _, natDigits_digits _⟩

theorem g8core_spec (neg : Bool) (n : Nat) (e : ℤ) :
    (g8core neg n e).2.1 ≠ [] ∧
    (∀ c ∈ (g8core neg n e).2.1, isDigitB c = true) ∧
    (∀ f, (g8core neg n e).2.2.1 = some f → ∀ c ∈ f, isDigitB c = true) ∧
    (∀ sb ed, (g8core neg n e).2.2.2 = some (sb, ed) →
      (sb = 43 ∨ sb = 45) ∧ ed ≠ [] ∧ ∀ c ∈ ed, isDigitB c = true) := by
  have hds := natDigits_ne_nil n
  have hdd := natDigits_digits n
  simp only [g8core]
  split
  · split
    · refine ⟨?_, ?_, ?_, ?_⟩
      · rw [Ne, List.take_eq_nil_iff]
        rintro (h | h)
        · omega
        · exact hds h
      · intro c hc
        exact hdd c (List.take_subset _ _ hc)
      · intro f hf
        split at hf
        · cases hf
        · cases hf
          intro c hc
          exact hdd c (List.drop_subset _ _ (mem_stripTrailingZeros hc))
      · intro sb ed h
        cases h
    · refine ⟨by simp, ?_, ?_, ?_⟩
      · intro c hc
        rw [List.mem_singleton] at hc
        subst hc
        decide
      · intro f hf
        cases hf
        intro c hc
        have := mem_stripTrailingZeros hc
        rw [List.mem_append] at this
        rcases this with h | h
        · rw [List.eq_of_mem_replicate h]
          decide
        · exact hdd c h
      · intro sb ed h
        cases h
  · refine ⟨?_, ?_, ?_, ?_⟩
    · rw [Ne, List.take_eq_nil_iff]
      rintro (h | h)
      · omega
      · exact hds h
    · intro c hc
      exact hdd c (List.take_subset _ _ hc)
    · intro f hf
      split at hf
      · cases hf
      · cases hf
        intro c hc
        exact hdd c (List.mem_of_mem_tail (mem_stripTrailingZeros hc))
    · intro sb ed h
      cases h
      refine ⟨?_, (expDigits_spec _).1, (expDigits_spec _).2⟩
      split
      · exact Or.inr rfl
      · exact Or.inl rfl

theorem g8parts_spec (x : ℚ) :
    (g8parts x).2.1 ≠ [] ∧
    (∀ c ∈ (g8parts x).2.1, isDigitB c = true) ∧
    (∀ f, (g8parts x).2.2.1 = some f → ∀ c ∈ f, isDigitB c = true) ∧
    (∀ sb ed, (g8parts x).2.2.2 = some (sb, ed) →
      (sb = 43 ∨ sb = 45) ∧ ed ≠ [] ∧ ∀ c ∈ ed, isDigitB c = true) := by
  unfold g8parts
  split
  · refine ⟨by simp, ?_, ?_, ?_⟩
    · intro c hc
      rw [List.mem_singleton] at hc
      subst hc
      decide
    · intro f hf
      cases hf
    · intro sb ed h
      cases h
  · exact g8core_spec _ _ _

theorem parseNumber_format_aux (x : ℚ) (rest : Str)
    (hrest : rest = [] ∨ ∃ r, rest = 44 :: r) :
    parseNumber (formatG8 x ++ rest) = some (g8val x, rest) := by
  obtain ⟨hip, hipd, hfpd, hex⟩ := g8parts_spec x
  rcases hp : g8parts x with ⟨sgn, ip, fp, ex⟩
  rw [hp] at hip hipd hfpd hex
  dsimp only at hip hipd hfpd hex
  have hfmt : formatG8 x =
      (if sgn then [45] else []) ++ ip ++ renderFp fp ++ renderEx ex := by
    rw [formatG8, hp]
    rfl
  have hval : g8val x = ratOf sgn ip (fp.getD []) (exVal ex) := by
    rw [g8val, hp]
  rw [hfmt, hval]
  cases sgn with
  | true =>
    have harg : ((if true then [45] else []) ++ ip ++ renderFp fp ++
        renderEx ex) ++ rest =
        45 :: (ip ++ (renderFp fp ++ (renderEx ex ++ rest))) := by
      simp
    rw [harg]
    have hsp : isSpaceB 45 = false := by decide
    simp only [parseNumber, List.dropWhile_cons, hsp, Bool.false_eq_true,
      if_false]
    exact parseBody_render true ip fp ex rest hip hipd hfpd hex hrest
  | false =>
    have harg : ((if false then [45] else []) ++ ip ++ renderFp fp ++
        renderEx ex) ++ rest =
        ip ++ (renderFp fp ++ (renderEx ex ++ rest)) := by
      simp
    rw [harg]
    cases ip with
    | nil => exact absurd rfl hip
    | cons c ip2 =>
      have hcd : isDigitB c = true := hipd c (List.mem_cons_self c ip2)
      have hc48 : 48 ≤ c ∧ c ≤ 57 := by
        simpa [isDigitB] using hcd
      have hsp : isSpaceB c = false := isSpaceB_of_digit hcd
      simp only [List.cons_append, parseNumber, List.dropWhile_cons, hsp,
        Bool.false_eq_true, if_false]
      split
      · rename_i heq
        injection heq with e1 e2
        omega
      · rename_i heq
        injection heq with e1 e2
        omega
      · rename_i hne1 hne2
        rw [← List.cons_append]
        exact parseBody_render false (c :: ip2) fp ex rest hip hipd hfpd hex
          hrest

theorem roundtrip8g_val (x : ℚ) : roundtrip8g x = g8val x := by
  unfold roundtrip8g
  have h := parseNumber_format_aux x [] (Or.inl rfl)
  rw [List.append_nil] at h
  rw [h]

theorem parseNumber_formatG8 (x : ℚ) (rest : Str)
    (hrest : rest = [] ∨ ∃ r, rest = 44 :: r) :
    parseNumber (formatG8 x ++ rest) = some (roundtrip8g x, rest) := by
  rw [roundtrip8g_val]
  exact parseNumber_format_aux x rest hrest

theorem parseLong_formatLd (t : ℤ) : parseLong (formatLd t) = some (t, []) := by
  unfold formatLd
  split
  · rename_i hneg
    have hd := natDigits_digits (-t).toNat
    have hne := natDigits_ne_nil (-t).toNat
    obtain ⟨h1, h2⟩ := takeWhile_all (natDigits (-t).toNat) hd
    rw [List.drop_length] at h2
    have hv : digitsValN (natDigits (-t).toNat) = (-t).toNat :=
      digitsValN_natDigits _
    simp only [parseLong, List.dropWhile_cons,
      show isSpaceB 45 = false from rfl, Bool.false_eq_true, if_false, h1, h2,
      hv, if_neg hne, Option.map_some', Option.some.injEq, Prod.mk.injEq,
      and_true]
    omega
  · rename_i hpos
    have hd := natDigits_digits t.toNat
    have hne := natDigits_ne_nil t.toNat
    obtain ⟨h1, h2⟩ := takeWhile_all (natDigits t.toNat) hd
    rw [List.drop_length] at h2
    have hv : digitsValN (natDigits t.toNat) = t.toNat :=
      digitsValN_natDigits _
    cases hds : natDigits t.toNat with
    | nil => exact absurd hds hne
    | cons c ds2 =>
      have hcd : isDigitB c = true := hd c (hds ▸ List.mem_cons_self c ds2)
      have hc48 : 48 ≤ c ∧ c ≤ 57 := by simpa [isDigitB] using hcd
      rw [hds] at h1 h2 hv
      have h2b : List.dropWhile isDigitB ds2 = [] := by
        rw [List.dropWhile_cons, hcd] at h2
        simpa using h2
      simp only [parseLong, hds, List.dropWhile_cons, isSpaceB_of_digit hcd,
        Bool.false_eq_true, if_false]
      split
      · rename_i heq
        injection heq with e1 e2
        omega
      · rename_i heq
        injection heq with e1 e2
        omega
      · simp only [h1, h2, hv, if_neg (List.cons_ne_nil c ds2), hcd, if_true,
          h2b, Option.map_some', Option.some.injEq, Prod.mk.injEq, and_true]
        omega

theorem bne44_all_of_not_mem {s : Str} (h : 44 ∉ s) :
    ∀ c ∈ s, (c != 44) = true := by
  intro c hc
  have hc44 : c ≠ 44 := by
    intro he
    subst he
    exact h hc
  simpa using hc44

theorem head44_stop (t : Str) :
    ∀ c, ((44 : Nat) :: t).head? = some c → (c != 44) = false := by
  intro c hc
  rw [List.head?_cons] at hc
  cases hc
  decide

theorem parseLine_mkLine (e : ConversionEntry) (he : wfEntry e) :
    parseLine (mkLine e) = some (entryRT e) := by
  obtain ⟨⟨hf1, hf2, hf3⟩, ⟨ht1, ht2, ht3⟩, hlf, hlt⟩ := he
  obtain ⟨a1, a2⟩ := takeWhile_append_stop e.fr
    (44 :: (e.tu ++ 44 :: (formatG8 e.value ++ 44 :: (formatG8 e.result ++
      44 :: formatLd e.timestamp))))
    (bne44_all_of_not_mem hf2) (head44_stop _)
  obtain ⟨b1, b2⟩ := takeWhile_append_stop e.tu
    (44 :: (formatG8 e.value ++ 44 :: (formatG8 e.result ++
      44 :: formatLd e.timestamp)))
    (bne44_all_of_not_mem ht2) (head44_stop _)
  have p1 := parseNumber_formatG8 e.value
    (44 :: (formatG8 e.result ++ 44 :: formatLd e.timestamp))
    (Or.inr ⟨_, rfl⟩)
  have p2 := parseNumber_formatG8 e.result (44 :: formatLd e.timestamp)
    (Or.inr ⟨_, rfl⟩)
  have p3 := parseLong_formatLd e.timestamp
  have hml : mkLine e = e.fr ++
      (44 :: (e.tu ++ 44 :: (formatG8 e.value ++ 44 :: (formatG8 e.result ++
        44 :: formatLd e.timestamp)))) := by
    simp [mkLine]
  rw [hml]
  simp only [parseLine, a1, a2, b1, b2, p1, p2, p3, hf1, ht1, ite_false]
  rw [entryRT, List.take_of_length_le hlf, List.take_of_length_le hlt]

theorem load_save_aux :
    ∀ (h : List ConversionEntry) (acc : List ConversionEntry),
      (∀ e ∈ h, wfEntry e) → acc.length + h.length ≤ MAX_HISTORY →
      load_history (save_history h) acc = acc ++ h.map entryRT := by
  intro h
  induction h with
  | nil =>
    intro acc _ _
    simp [save_history, load_history]
  | cons e h2 ih =>
    intro acc hwf hlen
    have hacc : acc.length < MAX_HISTORY := by
      rw [List.length_cons] at hlen
      omega
    rw [save_history, List.map_cons, load_history, if_pos hacc,
      parseLine_mkLine e (hwf e (List.mem_cons_self e h2))]
    show load_history (save_history h2) (acc ++ [entryRT e]) =
      acc ++ List.map entryRT (e :: h2)
    rw [ih (acc ++ [entryRT e])
      (fun e2 he2 => hwf e2 (List.mem_cons_of_mem e he2))
      (by
        rw [List.length_append, List.length_singleton]
        rw [List.length_cons] at hlen
        omega)]
    simp

/-- C7 (counterexample): an appended value that needs nine significant
digits does not survive the %.8g save format: reloading after the append
yields a log whose value field was rounded to eight significant digits, so
the reloaded log differs from the pre-reload in-memory log. -/
theorem persistence_value_loss_cx :
    load_history (save_history (add_history_entry [] (str "M") (str "KM")
        (mkRat 123456789 1000000000) 1 42)) [] ≠
      add_history_entry [] (str "M") (str "KM") (mkRat 123456789 1000000000)
        1 42 := by
  decide

/-- C7 (amended): after an append, a fresh load of the persisted lines
yields the pre-reload in-memory log with entry count, order, from/to symbols
and integer-second timestamps preserved exactly, and each value and result
replaced by its print-then-reparse rounding to eight significant digits
(the identity exactly when eight significant digits suffice). The
hypotheses state what the store itself guarantees: symbols are nonempty,
comma-free and newline-free, stored symbols fit the 15-byte fields, and
the log is within the MAX_HISTORY bound. -/
theorem persistence_roundtrip_8g (h : List ConversionEntry) (fr tu : Str)
    (v res : ℚ) (now : ℤ)
    (hwf : ∀ e ∈ h, wfEntry e)
    (hfr : wfTok fr) (htu : wfTok tu)
    (hlen : h.length ≤ MAX_HISTORY) :
    load_history (save_history (add_history_entry h fr tu v res now)) [] =
      (add_history_entry h fr tu v res now).map entryRT := by
  obtain ⟨f1, f2, f3⟩ := hfr
  obtain ⟨t1, t2, t3⟩ := htu
  have hnew : wfEntry ⟨fr.take 15, tu.take 15, v, res, now⟩ := by
    refine ⟨⟨?_, ?_, ?_⟩, ⟨?_, ?_, ?_⟩, ?_, ?_⟩
    · rw [Ne, List.take_eq_nil_iff]
      rintro (h15 | hnil)
      · omega
      · exact f1 hnil
    · intro hc
      exact f2 (List.take_subset _ _ hc)
    · intro hc
      exact f3 (List.take_subset _ _ hc)
    · rw [Ne, List.take_eq_nil_iff]
      rintro (h15 | hnil)
      · omega
      · exact t1 hnil
    · intro hc
      exact t2 (List.take_subset _ _ hc)
    · intro hc
      exact t3 (List.take_subset _ _ hc)
    · rw [List.length_take]
      omega
    · rw [List.length_take]
      omega
  unfold add_history_entry
  split
  · rename_i hl
    rw [load_save_aux _ []
      (by
        intro e2 he2
        rw [List.mem_append, List.mem_singleton] at he2
        rcases he2 with he2 | rfl
        · exact hwf e2 he2
        · exact hnew)
      (by
        rw [List.length_nil, List.length_append, List.length_cons,
          List.length_nil]
        omega)]
    rw [List.nil_append]
  · rename_i hl
    rw [load_save_aux _ []
      (by
        intro e2 he2
        rw [List.mem_append, List.mem_singleton] at he2
        rcases he2 with he2 | rfl
        · exact hwf e2 (List.mem_of_mem_tail he2)
        · exact hnew)
      (by
        rw [List.length_nil, List.length_append, List.length_cons,
          List.length_nil, List.length_tail]
        unfold MAX_HISTORY at *
        omega)]
    rw [List.nil_append]

theorem persistence_roundtrip_8g_witness :
    load_history (save_history (add_history_entry [] (str "M") (str "KM")
        (mkRat 1 200) (mkRat 5 1) 42)) [] =
      (add_history_entry [] (str "M") (str "KM") (mkRat 1 200) (mkRat 5 1)
        42).map entryRT :=
  persistence_roundtrip_8g [] (str "M") (str "KM") (mkRat 1 200) (mkRat 5 1)
    42 (by intro e he; exact absurd he (List.not_mem_nil e))
    ⟨by decide, by decide, by decide⟩ ⟨by decide, by decide, by decide⟩
    (by decide)

/-! ## main -/

/-- C8 (counterexample): invoked with the three positional arguments
100 C F, main performs no conversion and writes nothing to the history
file; invoked with two arguments it still exits with status 0 and prints
nothing to standard error. -/
theorem main_args_ignored_cx :
    (c_main [str "100", str "C", str "F"] []).historyWrites = [] ∧
    (c_main [str "1", str "2"] []).exitCode = 0 ∧
    (c_main [str "1", str "2"] []).stderrLines = [] :=
  ⟨rfl, rfl, rfl⟩

/-- C8 (amended): main ignores its argument vector entirely: for every
argument list it builds the registry, loads the history file into memory,
prints the main menu once, writes nothing, prints nothing to standard
error, and exits with status 0; there is no direct command-line conversion
mode. -/
theorem main_args_ignored (args args2 histLines : List Str) :
    (c_main args histLines).exitCode = 0 ∧
    (c_main args histLines).historyWrites = [] ∧
    (c_main args histLines).stderrLines = [] ∧
    (c_main args histLines).menu = show_main_menu ∧
    (c_main args histLines).finalHistory = load_history histLines [] ∧
    c_main args histLines = c_main args2 histLines :=
  ⟨rfl, rfl, rfl, rfl, rfl, rfl⟩

end Converter
